import Mathlib

/-!
Shallow embedding of the computational core of the Altu health dashboard
(`src/utils/data.js` and `src/utils/llm.js`).

Modelling conventions:
* JavaScript numbers are modelled as exact rationals (`ℚ`).  All inputs in the
  repository's data model are integral minute/step counts, and every arithmetic
  step in the source is a sum, difference, product, quotient or `Math.round`,
  so the rational model is the intended (exact) semantics of the code.
* `Math.round x` in JavaScript rounds half toward positive infinity; it is
  modelled as `⌊x + 1/2⌋ : ℤ`.
* Calendar dates (ISO `YYYY-MM-DD` strings in the data files) are modelled as
  day numbers (`ℕ`, days since the epoch).  `localeCompare` on ISO date
  strings coincides with numeric order on day numbers, and `getDay()` of the
  parsed UTC date is `(d + 4) % 7` (day 0, 1970-01-01, was a Thursday).
* `Array.prototype.sort` is stable (ECMA-262); it is modelled by
  `List.insertionSort` with a reflexive total preorder, which is stable in the
  same sense (an element earlier in the input stays before tied elements).
* Plain JS objects used as accumulator maps (`appTotals[k] = (appTotals[k]||0)+v`)
  preserve string-key insertion order; they are modelled as association lists
  in first-occurrence order.
-/

namespace Altu

/-- JavaScript `Math.round`: round half toward positive infinity. -/
def jsRound (x : ℚ) : ℤ := ⌊x + 1/2⌋

/-- A daily health record (after `transformHealthData` renaming). -/
structure HealthRecord where
  date : ℕ
  steps : ℚ
  sleep : ℚ
  energy : ℚ
  workout : ℚ
  deriving DecidableEq

/-- A per-app screen-time record (after `transformScreenTimeData` renaming). -/
structure ScreenTimeRecord where
  date : ℕ
  app : String
  minutes : ℚ
  category : String
  deriving DecidableEq

/-- `arr.reduce((sum, d) => sum + f(d), 0)`. -/
def sumBy (f : α → ℚ) (l : List α) : ℚ := l.foldl (fun s d => s + f d) 0

/-- `acc[k] = (acc[k] || 0) + v` on a plain-object accumulator, modelled as an
association list updated in place (new keys appended, i.e. insertion order). -/
def bumpKey [DecidableEq κ] : List (κ × ℚ) → κ → ℚ → List (κ × ℚ)
  | [], k, v => [(k, v)]
  | (a, t) :: rest, k, v =>
    if a = k then (a, t + v) :: rest else (a, t) :: bumpKey rest k v

/-- `l.forEach(item => { acc[key item] = (acc[key item] || 0) + val item })`
starting from an empty object; `Object.entries` of the result is this list. -/
def totalsByKey [DecidableEq κ] (key : α → κ) (val : α → ℚ) (l : List α) :
    List (κ × ℚ) :=
  l.foldl (fun acc it => bumpKey acc (key it) (val it)) []

/-- Comparator `(a, b) => b[1] - a[1]` on `Object.entries` pairs: the stable
descending-by-value preorder. -/
def pairMinGE (x y : κ × ℚ) : Prop := y.2 ≤ x.2

instance : DecidableRel (@pairMinGE κ) :=
  fun x y => inferInstanceAs (Decidable (y.2 ≤ x.2))

instance : IsTotal (κ × ℚ) pairMinGE := ⟨fun a b => le_total b.2 a.2⟩

instance : IsTrans (κ × ℚ) pairMinGE :=
  ⟨fun _ _ _ h1 h2 => le_trans h2 h1⟩

/-- An `{ app, minutes }` object. -/
structure AppMinutes where
  app : String
  minutes : ℚ
  deriving DecidableEq

/-- Comparator `(a, b) => b.minutes - a.minutes`. -/
def appMinGE (x y : AppMinutes) : Prop := y.minutes ≤ x.minutes

instance : DecidableRel appMinGE :=
  fun x y => inferInstanceAs (Decidable (y.minutes ≤ x.minutes))

instance : IsTotal AppMinutes appMinGE := ⟨fun a b => le_total b.minutes a.minutes⟩

instance : IsTrans AppMinutes appMinGE :=
  ⟨fun _ _ _ h1 h2 => le_trans h2 h1⟩

/-- A `{ category, minutes }` object. -/
structure CategoryMinutes where
  category : String
  minutes : ℚ
  deriving DecidableEq

/-- A `{ date, total }` object of the daily screen-time totals list. -/
structure DateTotal where
  date : ℕ
  total : ℚ
  deriving DecidableEq

/-- Comparator `(a, b) => a.date.localeCompare(b.date)` (ascending by date). -/
def dateTotalLE (x y : DateTotal) : Prop := x.date ≤ y.date

instance : DecidableRel dateTotalLE :=
  fun x y => inferInstanceAs (Decidable (x.date ≤ y.date))

instance : IsTotal DateTotal dateTotalLE := ⟨fun a b => le_total a.date b.date⟩

instance : IsTrans DateTotal dateTotalLE :=
  ⟨fun _ _ _ h1 h2 => le_trans h1 h2⟩

/-- Comparator `(a, b) => new Date(b.date) - new Date(a.date)` on health
records: the stable descending-by-date preorder. -/
def hrDateGE (x y : HealthRecord) : Prop := y.date ≤ x.date

instance : DecidableRel hrDateGE :=
  fun x y => inferInstanceAs (Decidable (y.date ≤ x.date))

instance : IsTotal HealthRecord hrDateGE := ⟨fun a b => le_total b.date a.date⟩

instance : IsTrans HealthRecord hrDateGE :=
  ⟨fun _ _ _ h1 h2 => le_trans h2 h1⟩

/-- Comparator `(a, b) => new Date(a.date) - new Date(b.date)` on health
records: the stable ascending-by-date preorder. -/
def hrDateLE (x y : HealthRecord) : Prop := x.date ≤ y.date

instance : DecidableRel hrDateLE :=
  fun x y => inferInstanceAs (Decidable (x.date ≤ y.date))

instance : IsTotal HealthRecord hrDateLE := ⟨fun a b => le_total a.date b.date⟩

instance : IsTrans HealthRecord hrDateLE :=
  ⟨fun _ _ _ h1 h2 => le_trans h1 h2⟩

/-- `l.slice(-n)`: the last `min n l.length` elements. -/
def jsSliceLast (n : ℕ) (l : List α) : List α := l.drop (l.length - n)

/-- `l.slice(-a, -b)` for `b ≤ a`: the window between the two negative
indices, with JavaScript's clamping of `l.length - a` and `l.length - b`
to `0` (which truncated `ℕ` subtraction provides). -/
def jsSliceWindow (a b : ℕ) (l : List α) : List α :=
  (l.drop (l.length - a)).take ((l.length - b) - (l.length - a))

/-- `x || 1` applied to a (rounded, hence integer) average: `0` is the only
falsy integer value. -/
def jsOr1 (n : ℤ) : ℚ := if n = 0 then 1 else (n : ℚ)

/-! ### computeMetrics (src/utils/data.js), piece by piece -/

/-- `Math.round(healthData.reduce((sum, d) => sum + d.steps, 0) / totalDays)`. -/
def avgStepsOf (hd : List HealthRecord) : ℤ :=
  jsRound (sumBy (·.steps) hd / (hd.length : ℚ))

/-- Average sleep minutes, rounded. -/
def avgSleepOf (hd : List HealthRecord) : ℤ :=
  jsRound (sumBy (·.sleep) hd / (hd.length : ℚ))

/-- Average active energy, rounded. -/
def avgEnergyOf (hd : List HealthRecord) : ℤ :=
  jsRound (sumBy (·.energy) hd / (hd.length : ℚ))

/-- Average workout minutes, rounded. -/
def avgWorkoutOf (hd : List HealthRecord) : ℤ :=
  jsRound (sumBy (·.workout) hd / (hd.length : ℚ))

/-- `healthData.filter(d => d.workout > 0).length`. -/
def workoutDaysOf (hd : List HealthRecord) : ℕ :=
  (hd.filter (fun d => decide (0 < d.workout))).length

/-- The `appTotals` accumulator object, in key-insertion order. -/
def appTotalsList (sd : List ScreenTimeRecord) : List (String × ℚ) :=
  totalsByKey (·.app) (·.minutes) sd

/-- The `categoryTotals` accumulator object, in key-insertion order. -/
def categoryTotalsList (sd : List ScreenTimeRecord) : List (String × ℚ) :=
  totalsByKey (·.category) (·.minutes) sd

/-- The `dailyTotals` accumulator object, in key-insertion order. -/
def dailyTotalsList (sd : List ScreenTimeRecord) : List (ℕ × ℚ) :=
  totalsByKey (·.date) (·.minutes) sd

/-- `Object.entries(appTotals).sort((a,b) => b[1]-a[1]).slice(0,10)
.map(([app, minutes]) => ({ app, minutes }))`. -/
def topAppsOf (sd : List ScreenTimeRecord) : List AppMinutes :=
  ((List.insertionSort pairMinGE (appTotalsList sd)).take 10).map
    (fun p => ⟨p.1, p.2⟩)

/-- `Object.entries(categoryTotals).sort((a,b) => b[1]-a[1])
.map(([category, minutes]) => ({ category, minutes }))`. -/
def topCategoriesOf (sd : List ScreenTimeRecord) : List CategoryMinutes :=
  (List.insertionSort pairMinGE (categoryTotalsList sd)).map
    (fun p => ⟨p.1, p.2⟩)

/-- `Object.entries(dailyTotals).map(([date, total]) => ({ date, total }))
.sort((a,b) => a.date.localeCompare(b.date))`. -/
def dailyTotalsArrayOf (sd : List ScreenTimeRecord) : List DateTotal :=
  List.insertionSort dateTotalLE ((dailyTotalsList sd).map (fun p => ⟨p.1, p.2⟩))

/-- `Math.round(dailyTotalsArray.reduce((s,d) => s + d.total, 0) / dailyTotalsArray.length)`. -/
def avgDailyOf (sd : List ScreenTimeRecord) : ℤ :=
  jsRound (sumBy (·.total) (dailyTotalsArrayOf sd) / ((dailyTotalsArrayOf sd).length : ℚ))

/-- `Math.min(100, (avgSteps / idealSteps) * 100)` with `idealSteps = 10000`. -/
def stepsScoreOf (hd : List HealthRecord) : ℚ :=
  min 100 ((avgStepsOf hd : ℚ) / 10000 * 100)

/-- `Math.min(100, (avgSleep / idealSleep) * 100)` with `idealSleep = 480`. -/
def sleepScoreOf (hd : List HealthRecord) : ℚ :=
  min 100 ((avgSleepOf hd : ℚ) / 480 * 100)

/-- `Math.min(100, (avgWorkout / idealWorkout) * 100)` with `idealWorkout = 30`. -/
def workoutScoreOf (hd : List HealthRecord) : ℚ :=
  min 100 ((avgWorkoutOf hd : ℚ) / 30 * 100)

/-- `Math.min(100, (idealScreenTime / (avgDaily || 1)) * 100)` with
`idealScreenTime = 240` (inverse: less is better). -/
def screenTimeScoreOf (sd : List ScreenTimeRecord) : ℚ :=
  min 100 ((240 : ℚ) / jsOr1 (avgDailyOf sd) * 100)

/-- The weighted wellness score (steps 30%, sleep 30%, workout 25%,
screen time 15%), rounded. -/
def wellnessScoreOf (hd : List HealthRecord) (sd : List ScreenTimeRecord) : ℤ :=
  jsRound (stepsScoreOf hd * (30 / 100) + sleepScoreOf hd * (30 / 100) +
    workoutScoreOf hd * (25 / 100) + screenTimeScoreOf sd * (15 / 100))

/-- `healthData.slice(-7)`. -/
def last7Of (hd : List HealthRecord) : List HealthRecord := jsSliceLast 7 hd

/-- `healthData.slice(-14, -7)`. -/
def previous7Of (hd : List HealthRecord) : List HealthRecord := jsSliceWindow 14 7 hd

/-- `last7Days.length > 0 ? Math.round(sum steps / length) : 0`. -/
def last7AvgStepsOf (hd : List HealthRecord) : ℤ :=
  if 0 < (last7Of hd).length then
    jsRound (sumBy (·.steps) (last7Of hd) / ((last7Of hd).length : ℚ))
  else 0

/-- Last-7-days average sleep (guarded). -/
def last7AvgSleepOf (hd : List HealthRecord) : ℤ :=
  if 0 < (last7Of hd).length then
    jsRound (sumBy (·.sleep) (last7Of hd) / ((last7Of hd).length : ℚ))
  else 0

/-- Last-7-days average workout (guarded). -/
def last7AvgWorkoutOf (hd : List HealthRecord) : ℤ :=
  if 0 < (last7Of hd).length then
    jsRound (sumBy (·.workout) (last7Of hd) / ((last7Of hd).length : ℚ))
  else 0

/-- `last7Days.map(d => d.date)`. -/
def last7DatesOf (hd : List HealthRecord) : List ℕ := (last7Of hd).map (·.date)

/-- `screenTimeData.filter(item => last7Dates.includes(item.date))`. -/
def last7ScreenOf (hd : List HealthRecord) (sd : List ScreenTimeRecord) :
    List ScreenTimeRecord :=
  sd.filter (fun it => (last7DatesOf hd).contains it.date)

/-- The `last7ScreenTimeTotals` per-date accumulator object. -/
def last7STTotalsOf (hd : List HealthRecord) (sd : List ScreenTimeRecord) :
    List (ℕ × ℚ) :=
  totalsByKey (·.date) (·.minutes) (last7ScreenOf hd sd)

/-- `Object.keys(t).length > 0 ? Math.round(sum of values / number of keys) : 0`. -/
def last7AvgScreenTimeOf (hd : List HealthRecord) (sd : List ScreenTimeRecord) : ℤ :=
  if 0 < (last7STTotalsOf hd sd).length then
    jsRound (sumBy (·.2) (last7STTotalsOf hd sd) / ((last7STTotalsOf hd sd).length : ℚ))
  else 0

/-- Last-7-days sub-scores and wellness score (same formula, 7-day window).
The source also computes `prev7Avg...` locals; they flow into nothing and are
omitted here. -/
def last7StepsScoreOf (hd : List HealthRecord) : ℚ :=
  min 100 ((last7AvgStepsOf hd : ℚ) / 10000 * 100)

/-- Last-7-days sleep sub-score. -/
def last7SleepScoreOf (hd : List HealthRecord) : ℚ :=
  min 100 ((last7AvgSleepOf hd : ℚ) / 480 * 100)

/-- Last-7-days workout sub-score. -/
def last7WorkoutScoreOf (hd : List HealthRecord) : ℚ :=
  min 100 ((last7AvgWorkoutOf hd : ℚ) / 30 * 100)

/-- Last-7-days screen-time sub-score. -/
def last7ScreenTimeScoreOf (hd : List HealthRecord) (sd : List ScreenTimeRecord) : ℚ :=
  min 100 ((240 : ℚ) / jsOr1 (last7AvgScreenTimeOf hd sd) * 100)

/-- `last7WellnessScore`. -/
def last7WellnessScoreOf (hd : List HealthRecord) (sd : List ScreenTimeRecord) : ℤ :=
  jsRound (last7StepsScoreOf hd * (30 / 100) + last7SleepScoreOf hd * (30 / 100) +
    last7WorkoutScoreOf hd * (25 / 100) + last7ScreenTimeScoreOf hd sd * (15 / 100))

/-! ### Streaks -/

/-- `day.workout >= streakWorkoutMin` with `streakWorkoutMin = 15`. -/
def workoutQualifies (d : HealthRecord) : Bool := decide ((15 : ℚ) ≤ d.workout)

/-- `day.sleep >= streakSleepMin` with `streakSleepMin = 420`. -/
def sleepQualifies (d : HealthRecord) : Bool := decide ((420 : ℚ) ≤ d.sleep)

/-- `day.steps >= streakStepsMin` with `streakStepsMin = 8000`. -/
def stepsQualifies (d : HealthRecord) : Bool := decide ((8000 : ℚ) ≤ d.steps)

/-- `[...healthData].sort((a,b) => new Date(b.date) - new Date(a.date))`:
a fresh copy, stably sorted descending by date. -/
def sortedHealthDesc (hd : List HealthRecord) : List HealthRecord :=
  List.insertionSort hrDateGE hd

/-- `[...healthData].sort((a,b) => new Date(a.date) - new Date(b.date))`:
a fresh copy, stably sorted ascending by date. -/
def sortedHealthAsc (hd : List HealthRecord) : List HealthRecord :=
  List.insertionSort hrDateLE hd

/-- `for (const day of l) { if (p day) streak++ else break }`. -/
def countWhile (p : α → Bool) (l : List α) : ℕ := (l.takeWhile p).length

/-- One chronological scan: `(current, best)` updated by
`if (p day) { current++; best = max(best, current) } else { current = 0 }`. -/
def bestStreakRun (p : α → Bool) (l : List α) : ℕ × ℕ :=
  l.foldl (fun ab d => if p d then (ab.1 + 1, max ab.2 (ab.1 + 1)) else (0, ab.2)) (0, 0)

/-! ### The Metrics shape -/

/-- The `health` sub-object of `Metrics`.  The empty-input literal in the
source omits `totalDays`; it is modelled as `0` there. -/
structure HealthMetrics where
  avgSteps : ℤ
  avgSleep : ℤ
  avgEnergy : ℤ
  avgWorkout : ℤ
  workoutDays : ℕ
  totalDays : ℕ
  deriving DecidableEq

/-- The `screenTime` sub-object of `Metrics`. -/
structure ScreenTimeMetrics where
  topApps : List AppMinutes
  topCategories : List CategoryMinutes
  dailyTotals : List DateTotal
  avgDaily : ℤ
  deriving DecidableEq

/-- The `wellness` sub-object of `Metrics`. -/
structure WellnessMetrics where
  score : ℤ
  stepsScore : ℚ
  sleepScore : ℚ
  workoutScore : ℚ
  screenTimeScore : ℚ
  weeklyScore : ℤ
  weeklyChange : ℤ
  deriving DecidableEq

/-- One `{ workout, sleep, steps }` streak triple. -/
structure StreakSet where
  workout : ℕ
  sleep : ℕ
  steps : ℕ
  deriving DecidableEq

/-- The `streaks` sub-object of `Metrics`. -/
structure Streaks where
  current : StreakSet
  best : StreakSet
  deriving DecidableEq

/-- The full `Metrics` result object. -/
structure Metrics where
  health : HealthMetrics
  screenTime : ScreenTimeMetrics
  wellness : WellnessMetrics
  streaks : Streaks
  deriving DecidableEq

/-- `computeMetrics(healthData, screenTimeData)` from `src/utils/data.js`. -/
def computeMetrics (healthData : List HealthRecord)
    (screenTimeData : List ScreenTimeRecord) : Metrics :=
  if healthData = [] ∨ screenTimeData = [] then
    { health := ⟨0, 0, 0, 0, 0, 0⟩
      screenTime := ⟨[], [], [], 0⟩
      wellness := ⟨0, 0, 0, 0, 0, 0, 0⟩
      streaks := ⟨⟨0, 0, 0⟩, ⟨0, 0, 0⟩⟩ }
  else
    { health :=
        ⟨avgStepsOf healthData, avgSleepOf healthData, avgEnergyOf healthData,
          avgWorkoutOf healthData, workoutDaysOf healthData, healthData.length⟩
      screenTime :=
        ⟨topAppsOf screenTimeData, topCategoriesOf screenTimeData,
          dailyTotalsArrayOf screenTimeData, avgDailyOf screenTimeData⟩
      wellness :=
        ⟨wellnessScoreOf healthData screenTimeData, stepsScoreOf healthData,
          sleepScoreOf healthData, workoutScoreOf healthData,
          screenTimeScoreOf screenTimeData,
          last7WellnessScoreOf healthData screenTimeData,
          last7WellnessScoreOf healthData screenTimeData -
            wellnessScoreOf healthData screenTimeData⟩
      streaks :=
        ⟨⟨countWhile workoutQualifies (sortedHealthDesc healthData),
          countWhile sleepQualifies (sortedHealthDesc healthData),
          countWhile stepsQualifies (sortedHealthDesc healthData)⟩,
         ⟨(bestStreakRun workoutQualifies (sortedHealthAsc healthData)).2,
          (bestStreakRun sleepQualifies (sortedHealthAsc healthData)).2,
          (bestStreakRun stepsQualifies (sortedHealthAsc healthData)).2⟩⟩ }

/-! ### src/utils/llm.js: computed insights -/

/-- `new Date(dateStr).getDay()` for a day number (1970-01-01 was a Thursday,
whose `getDay()` is 4). -/
def getDay (d : ℕ) : ℕ := (d + 4) % 7

/-- `isWeekend(dateStr)`: Sunday (0) or Saturday (6). -/
def isWeekend (d : ℕ) : Bool := getDay d == 0 || getDay d == 6

/-- Character-list version of `String.startsWith` (needle first). -/
def startsWithCL : List Char → List Char → Bool
  | [], _ => true
  | _ :: _, [] => false
  | c :: cs, d :: ds => c == d && startsWithCL cs ds

/-- Character-list version of substring containment (needle first). -/
def containsCL (needle : List Char) : List Char → Bool
  | [] => startsWithCL needle []
  | d :: ds => startsWithCL needle (d :: ds) || containsCL needle ds

/-- JavaScript `hay.includes(needle)` on strings. -/
def strIncludes (hay needle : String) : Bool := containsCL needle.data hay.data

/-- JavaScript `s.toLowerCase()` (all question/app strings are ASCII). -/
def jsLower (s : String) : String := String.mk (s.data.map Char.toLower)

/-- `[...new Set(l)]`: deduplication keeping first-occurrence order. -/
def insertFirst (acc : List String) (x : String) : List String :=
  if x ∈ acc then acc else acc ++ [x]

/-- `[...new Set(screenTimeData.map(item => item.app))]`. -/
def uniqueApps (sd : List ScreenTimeRecord) : List String :=
  sd.foldl (fun acc it => insertFirst acc it.app) []

/-- The fixed `appVariations` alias table. -/
def appVariations : List (String × List String) :=
  [("twitter", ["twitter", "x app", "x"]),
   ("instagram", ["instagram", "ig"]),
   ("facebook", ["facebook", "fb"]),
   ("youtube", ["youtube", "yt"]),
   ("tiktok", ["tiktok", "tt"]),
   ("snapchat", ["snapchat", "snap"]),
   ("whatsapp", ["whatsapp", "wa"]),
   ("messenger", ["messenger", "fb messenger"])]

/-- `extractAppName(question, screenTimeData)`. -/
def extractAppName (question : String) (sd : List ScreenTimeRecord) : Option String :=
  let ql := jsLower question
  let allApps := uniqueApps sd
  match allApps.find? (fun app => strIncludes ql (jsLower app)) with
  | some app => some app
  | none =>
    appVariations.findSome? (fun kv =>
      if kv.2.any (fun v => strIncludes ql v) then
        allApps.find? (fun app =>
          strIncludes (jsLower app) kv.1 || strIncludes kv.1 (jsLower app))
      else none)

/-- A `{ date, minutes }` entry of a daily breakdown. -/
structure DayMinutes where
  date : ℕ
  minutes : ℚ
  deriving DecidableEq

/-- Comparator `(a, b) => a.date.localeCompare(b.date)` on breakdown entries. -/
def dayMinLE (x y : DayMinutes) : Prop := x.date ≤ y.date

instance : DecidableRel dayMinLE :=
  fun x y => inferInstanceAs (Decidable (x.date ≤ y.date))

instance : IsTotal DayMinutes dayMinLE := ⟨fun a b => le_total a.date b.date⟩

instance : IsTrans DayMinutes dayMinLE :=
  ⟨fun _ _ _ h1 h2 => le_trans h1 h2⟩

/-- One weekday-or-weekend bucket of `computeAppWeekdayWeekendStats`. -/
structure BucketStats where
  days : ℕ
  totalMinutes : ℚ
  avgMinutes : ℤ
  dailyBreakdown : List DayMinutes
  deriving DecidableEq

/-- Result of `computeAppWeekdayWeekendStats`. -/
structure AppWWStats where
  appName : String
  weekday : BucketStats
  weekend : BucketStats
  deriving DecidableEq

/-- The records of the given app (case-insensitive name match). -/
def appDataOf (appName : String) (sd : List ScreenTimeRecord) : List ScreenTimeRecord :=
  sd.filter (fun it => jsLower it.app == jsLower appName)

/-- The weekend `{date, minutes}` rows of the app, in input order. -/
def weekendDataOf (appName : String) (sd : List ScreenTimeRecord) : List DayMinutes :=
  ((appDataOf appName sd).filter (fun it => isWeekend it.date)).map
    (fun it => ⟨it.date, it.minutes⟩)

/-- The weekday `{date, minutes}` rows of the app, in input order. -/
def weekdayDataOf (appName : String) (sd : List ScreenTimeRecord) : List DayMinutes :=
  ((appDataOf appName sd).filter (fun it => !isWeekend it.date)).map
    (fun it => ⟨it.date, it.minutes⟩)

/-- `computeAppWeekdayWeekendStats(appName, screenTimeData)`. -/
def computeAppWeekdayWeekendStats (appName : String) (sd : List ScreenTimeRecord) :
    AppWWStats :=
  let weekdayData := weekdayDataOf appName sd
  let weekendData := weekendDataOf appName sd
  let weekdayTotal := sumBy (·.minutes) weekdayData
  let weekendTotal := sumBy (·.minutes) weekendData
  { appName := appName
    weekday :=
      ⟨weekdayData.length, weekdayTotal,
        if 0 < weekdayData.length then jsRound (weekdayTotal / (weekdayData.length : ℚ))
        else 0,
        List.insertionSort dayMinLE weekdayData⟩
    weekend :=
      ⟨weekendData.length, weekendTotal,
        if 0 < weekendData.length then jsRound (weekendTotal / (weekendData.length : ℚ))
        else 0,
        List.insertionSort dayMinLE weekendData⟩ }

/-- The metric key passed to `computeTrendStats` (`'steps' | 'sleep' | 'workout'`). -/
inductive HMetric where
  | steps
  | sleep
  | workout
  deriving DecidableEq

/-- `d[metric]`. -/
def metricVal : HMetric → HealthRecord → ℚ
  | .steps, d => d.steps
  | .sleep, d => d.sleep
  | .workout, d => d.workout

/-- Result of `computeTrendStats` (when not `null`). -/
structure TrendStats where
  recent30Days : ℤ
  previous30Days : ℤ
  change : ℤ
  percentChange : ℤ
  trend : String
  dailyValues : List (ℕ × ℚ)
  deriving DecidableEq

/-- `computeTrendStats(healthData, metric)`; `null` is `none`. -/
def computeTrendStats (hd : List HealthRecord) (m : HMetric) : Option TrendStats :=
  let recent30 := jsSliceLast 30 hd
  let previous30 := jsSliceWindow 60 30 hd
  if previous30 = [] then none
  else
    let recentAvg := jsRound (sumBy (metricVal m) recent30 / (recent30.length : ℚ))
    let previousAvg := jsRound (sumBy (metricVal m) previous30 / (previous30.length : ℚ))
    let change := recentAvg - previousAvg
    some
      { recent30Days := recentAvg
        previous30Days := previousAvg
        change := change
        percentChange :=
          if 0 < previousAvg then jsRound ((change : ℚ) / (previousAvg : ℚ) * 100) else 0
        trend :=
          if 0 < change then "increasing"
          else if change < 0 then "decreasing" else "stable"
        dailyValues := recent30.map (fun d => (d.date, metricVal m d)) }

/-- `computeAllAppTotals(screenTimeData)`: full per-app ranking, sorted
descending by minutes (stable). -/
def computeAllAppTotals (sd : List ScreenTimeRecord) : List AppMinutes :=
  List.insertionSort appMinGE ((appTotalsList sd).map (fun p => ⟨p.1, p.2⟩))

/-- The `exerciseSleepRelationship` insight object. -/
structure ExSleepRel where
  avgSleepWithWorkout : ℤ
  avgSleepNoWorkout : ℤ
  difference : ℤ
  workoutDays : ℕ
  noWorkoutDays : ℕ
  deriving DecidableEq

/-- The sparse insight map returned by `extractComputedInsights`; absent keys
are `none`. -/
structure Insights where
  mostUsedApp : Option AppMinutes := none
  topApps : Option (List AppMinutes) := none
  leastUsedApp : Option AppMinutes := none
  bottomApps : Option (List AppMinutes) := none
  appWeekdayWeekend : Option AppWWStats := none
  stepsTrend : Option TrendStats := none
  sleepTrend : Option TrendStats := none
  workoutTrend : Option TrendStats := none
  exerciseSleepRelationship : Option ExSleepRel := none
  deriving DecidableEq

/-- `extractComputedInsights(question, metrics, healthData, screenTimeData)`.
The `metrics` argument is unused in the source as well. -/
def extractComputedInsights (question : String) (_metrics : Metrics)
    (healthData : List HealthRecord) (screenTimeData : List ScreenTimeRecord) :
    Insights :=
  let ql := jsLower question
  let i0 : Insights := {}
  let i1 :=
    if (strIncludes ql "most" || strIncludes ql "least") &&
        (strIncludes ql "app" || strIncludes ql "use") then
      let allApps := computeAllAppTotals screenTimeData
      let ia :=
        if strIncludes ql "most" then
          { i0 with mostUsedApp := allApps.head?, topApps := some (allApps.take 5) }
        else i0
      if strIncludes ql "least" then
        { ia with leastUsedApp := allApps.getLast?,
                  bottomApps := some (jsSliceLast 5 allApps).reverse }
      else ia
    else i0
  let i2 :=
    match extractAppName question screenTimeData with
    | some appName =>
      if strIncludes ql "weekday" || strIncludes ql "weekend" ||
          strIncludes ql "week day" || strIncludes ql "week end" then
        { i1 with
          appWeekdayWeekend := some (computeAppWeekdayWeekendStats appName screenTimeData) }
      else i1
    | none => i1
  let i3 :=
    if strIncludes ql "trend" || strIncludes ql "change" ||
        strIncludes ql "increase" || strIncludes ql "decrease" then
      let ia := if strIncludes ql "step" then
          { i2 with stepsTrend := computeTrendStats healthData .steps } else i2
      let ib := if strIncludes ql "sleep" then
          { ia with sleepTrend := computeTrendStats healthData .sleep } else ia
      if strIncludes ql "workout" || strIncludes ql "exercise" then
        { ib with workoutTrend := computeTrendStats healthData .workout }
      else ib
    else i2
  if (strIncludes ql "exercise" || strIncludes ql "workout") &&
      strIncludes ql "sleep" then
    let recent30 := jsSliceLast 30 healthData
    let workoutDays := recent30.filter (fun d => decide (0 < d.workout))
    let noWorkoutDays := recent30.filter (fun d => d.workout == 0)
    let avgSleepWithWorkout : ℤ :=
      if 0 < workoutDays.length then
        jsRound (sumBy (·.sleep) workoutDays / (workoutDays.length : ℚ))
      else 0
    let avgSleepNoWorkout : ℤ :=
      if 0 < noWorkoutDays.length then
        jsRound (sumBy (·.sleep) noWorkoutDays / (noWorkoutDays.length : ℚ))
      else 0
    let rel : ExSleepRel :=
      ⟨avgSleepWithWorkout, avgSleepNoWorkout,
        avgSleepWithWorkout - avgSleepNoWorkout,
        workoutDays.length, noWorkoutDays.length⟩
    { i3 with exerciseSleepRelationship := some rel }
  else i3

/-! ### A reference store, to state the no-mutation (frame) property of
`computeMetrics`.  JS arrays are heap references; array extras (`map`,
`filter`, `reduce`, `slice`, spread) allocate, while `Array.prototype.sort`
mutates its receiver in place.  `computeMetrics` sorts only the two
`[...healthData]` spread copies, which is what the store-passing version
below makes explicit. -/

/-- A heap of arrays; a "reference" is an index into the corresponding list. -/
structure Store where
  health : List (List HealthRecord)
  screen : List (List ScreenTimeRecord)
  deriving DecidableEq

/-- Dereference a health-array reference (out-of-range reads as `[]`). -/
def readHealth (st : Store) (r : ℕ) : List HealthRecord := st.health.getD r []

/-- Dereference a screen-time-array reference. -/
def readScreen (st : Store) (r : ℕ) : List ScreenTimeRecord := st.screen.getD r []

/-- Allocate a fresh health array (`[...a]`), returning its reference. -/
def allocHealth (st : Store) (a : List HealthRecord) : Store × ℕ :=
  ({ st with health := st.health ++ [a] }, st.health.length)

/-- Overwrite the array behind a health reference. -/
def writeHealth (st : Store) (r : ℕ) (a : List HealthRecord) : Store :=
  { st with health := st.health.set r a }

/-- `arr.sort((a,b) => new Date(b.date) - new Date(a.date))`: in-place. -/
def sortHealthDescAt (st : Store) (r : ℕ) : Store :=
  writeHealth st r (List.insertionSort hrDateGE (readHealth st r))

/-- `arr.sort((a,b) => new Date(a.date) - new Date(b.date))`: in-place. -/
def sortHealthAscAt (st : Store) (r : ℕ) : Store :=
  writeHealth st r (List.insertionSort hrDateLE (readHealth st r))

/-- Store-passing version of `computeMetrics`: the two arguments are array
references, every in-place sort goes through the store, and the final store
is returned alongside the result. -/
def computeMetricsSt (st : Store) (ha sa : ℕ) : Metrics × Store :=
  let healthData := readHealth st ha
  let screenTimeData := readScreen st sa
  if healthData = [] ∨ screenTimeData = [] then
    ({ health := ⟨0, 0, 0, 0, 0, 0⟩
       screenTime := ⟨[], [], [], 0⟩
       wellness := ⟨0, 0, 0, 0, 0, 0, 0⟩
       streaks := ⟨⟨0, 0, 0⟩, ⟨0, 0, 0⟩⟩ }, st)
  else
    -- `const sortedHealthData = [...healthData].sort(desc)`
    let p1 := allocHealth st healthData
    let st1 := sortHealthDescAt p1.1 p1.2
    let sortedHealthData := readHealth st1 p1.2
    -- `const sortedByDate = [...healthData].sort(asc)` (healthData re-read
    -- through its reference, after the first sort ran)
    let p2 := allocHealth st1 (readHealth st1 ha)
    let st2 := sortHealthAscAt p2.1 p2.2
    let sortedByDate := readHealth st2 p2.2
    ({ health :=
         ⟨avgStepsOf healthData, avgSleepOf healthData, avgEnergyOf healthData,
           avgWorkoutOf healthData, workoutDaysOf healthData, healthData.length⟩
       screenTime :=
         ⟨topAppsOf screenTimeData, topCategoriesOf screenTimeData,
           dailyTotalsArrayOf screenTimeData, avgDailyOf screenTimeData⟩
       wellness :=
         ⟨wellnessScoreOf healthData screenTimeData, stepsScoreOf healthData,
           sleepScoreOf healthData, workoutScoreOf healthData,
           screenTimeScoreOf screenTimeData,
           last7WellnessScoreOf healthData screenTimeData,
           last7WellnessScoreOf healthData screenTimeData -
             wellnessScoreOf healthData screenTimeData⟩
       streaks :=
         ⟨⟨countWhile workoutQualifies sortedHealthData,
           countWhile sleepQualifies sortedHealthData,
           countWhile stepsQualifies sortedHealthData⟩,
          ⟨(bestStreakRun workoutQualifies sortedByDate).2,
           (bestStreakRun sleepQualifies sortedByDate).2,
           (bestStreakRun stepsQualifies sortedByDate).2⟩⟩ }, st2)

/-! ### Specification-side definitions (the claims' wording) -/

/-- The spec's "current" streak: consecutive qualifying days counted backward
from the most recent record of a chronological dataset, stopping at the first
failing day. -/
def currentStreakSpec (p : HealthRecord → Bool) (l : List HealthRecord) : ℕ :=
  (l.reverse.takeWhile p).length

/-- The spec's "best" streak: scan chronologically forward, reset to 0 on a
failing day, track the running maximum. -/
def bestStreakSpec (p : HealthRecord → Bool) (l : List HealthRecord) : ℕ :=
  (bestStreakRun p l).2

/-- A chronological dataset: record dates strictly increase (the data model
keeps one record per calendar day, in chronological order). -/
def chronological (l : List HealthRecord) : Prop :=
  l.Pairwise (fun a b => a.date < b.date)

/-- Sum of `val` over the input records whose `key` is `k`. -/
def keySum [DecidableEq κ] (key : α → κ) (val : α → ℚ) (k : κ) (l : List α) : ℚ :=
  sumBy val (l.filter (fun x => decide (key x = k)))

/-- C1's formula: the wellness sub-scores and score of the returned metrics,
written in terms of the returned averages and the ideal constants. -/
def wellnessFormulaSpec (hd : List HealthRecord) (sd : List ScreenTimeRecord) : Prop :=
  let m := computeMetrics hd sd
  m.wellness.stepsScore = min 100 ((m.health.avgSteps : ℚ) / 10000 * 100) ∧
  m.wellness.sleepScore = min 100 ((m.health.avgSleep : ℚ) / 480 * 100) ∧
  m.wellness.workoutScore = min 100 ((m.health.avgWorkout : ℚ) / 30 * 100) ∧
  m.wellness.screenTimeScore = min 100 ((240 : ℚ) / (m.screenTime.avgDaily : ℚ) * 100) ∧
  m.wellness.score =
    jsRound (m.wellness.stepsScore * (30 / 100) + m.wellness.sleepScore * (30 / 100) +
      m.wellness.workoutScore * (25 / 100) + m.wellness.screenTimeScore * (15 / 100))

/-- C2's description of the streak counters of `computeMetrics`. -/
def streaksMatchSpec (hd : List HealthRecord) (sd : List ScreenTimeRecord) : Prop :=
  let m := computeMetrics hd sd
  m.streaks.current.workout = currentStreakSpec workoutQualifies hd ∧
  m.streaks.current.sleep = currentStreakSpec sleepQualifies hd ∧
  m.streaks.current.steps = currentStreakSpec stepsQualifies hd ∧
  m.streaks.best.workout = bestStreakSpec workoutQualifies hd ∧
  m.streaks.best.sleep = bestStreakSpec sleepQualifies hd ∧
  m.streaks.best.steps = bestStreakSpec stepsQualifies hd

/-- C5: all four wellness sub-scores lie in `[0, 100]`. -/
def subScoresBounded (hd : List HealthRecord) (sd : List ScreenTimeRecord) : Prop :=
  let m := computeMetrics hd sd
  (0 ≤ m.wellness.stepsScore ∧ m.wellness.stepsScore ≤ 100) ∧
  (0 ≤ m.wellness.sleepScore ∧ m.wellness.sleepScore ≤ 100) ∧
  (0 ≤ m.wellness.workoutScore ∧ m.wellness.workoutScore ≤ 100) ∧
  (0 ≤ m.wellness.screenTimeScore ∧ m.wellness.screenTimeScore ≤ 100)

/-- C6: the full per-app ranking sums minutes per app over all records, is
sorted descending by minutes with ties in first-occurrence order, and is
exhaustive. -/
def rankingSpec (sd : List ScreenTimeRecord) : Prop :=
  let r := computeAllAppTotals sd
  (∀ p ∈ r, p.minutes = keySum (·.app) (·.minutes) p.app sd) ∧
  r.Sorted appMinGE ∧
  (∀ m : ℚ, r.filter (fun y => decide (y.minutes = m)) =
    ((appTotalsList sd).map (fun p => AppMinutes.mk p.1 p.2)).filter
      (fun y => decide (y.minutes = m))) ∧
  (∀ a : String, (∃ it ∈ sd, it.app = a) ↔ ∃ m : ℚ, AppMinutes.mk a m ∈ r)

/-- C7: contents of the non-null trend result, in the claim's terms. -/
def trendSpecHolds (hd : List HealthRecord) (m : HMetric) : Prop :=
  let recent30 := jsSliceLast 30 hd
  let previous30 := jsSliceWindow 60 30 hd
  let recentAvg := jsRound (sumBy (metricVal m) recent30 / (recent30.length : ℚ))
  let previousAvg := jsRound (sumBy (metricVal m) previous30 / (previous30.length : ℚ))
  ∃ t, computeTrendStats hd m = some t ∧
    t.recent30Days = recentAvg ∧
    t.previous30Days = previousAvg ∧
    t.change = recentAvg - previousAvg ∧
    (0 < previousAvg → t.percentChange = jsRound ((t.change : ℚ) / (previousAvg : ℚ) * 100)) ∧
    (previousAvg = 0 → t.percentChange = 0) ∧
    (0 < t.change → t.trend = "increasing") ∧
    (t.change < 0 → t.trend = "decreasing") ∧
    (t.change = 0 → t.trend = "stable")

/-- C9: the weekday/weekend split of one app's records. -/
def weekdayWeekendSpec (appName : String) (sd : List ScreenTimeRecord) : Prop :=
  let st := computeAppWeekdayWeekendStats appName sd
  let wkday := weekdayDataOf appName sd
  let wkend := weekendDataOf appName sd
  wkday.length + wkend.length = (appDataOf appName sd).length ∧
  (∀ it ∈ appDataOf appName sd,
    (DayMinutes.mk it.date it.minutes ∈ st.weekend.dailyBreakdown ↔ isWeekend it.date = true) ∧
    (DayMinutes.mk it.date it.minutes ∈ st.weekday.dailyBreakdown ↔ isWeekend it.date = false)) ∧
  st.weekday.days = wkday.length ∧
  st.weekend.days = wkend.length ∧
  st.weekday.totalMinutes = sumBy (·.minutes) wkday ∧
  st.weekend.totalMinutes = sumBy (·.minutes) wkend ∧
  st.weekday.avgMinutes =
    (if 0 < wkday.length then jsRound (sumBy (·.minutes) wkday / (wkday.length : ℚ)) else 0) ∧
  st.weekend.avgMinutes =
    (if 0 < wkend.length then jsRound (sumBy (·.minutes) wkend / (wkend.length : ℚ)) else 0) ∧
  st.weekday.dailyBreakdown.Perm wkday ∧
  st.weekend.dailyBreakdown.Perm wkend ∧
  st.weekday.dailyBreakdown.Sorted dayMinLE ∧
  st.weekend.dailyBreakdown.Sorted dayMinLE ∧
  st.weekday.totalMinutes + st.weekend.totalMinutes = sumBy (·.minutes) (appDataOf appName sd)

/-! ### Concrete example inputs used by the spec's examples -/

/-- One day at exactly the ideal values (steps 10000, sleep 480, workout 30). -/
def exHealthIdeal : List HealthRecord := [⟨0, 10000, 480, 0, 30⟩]

/-- One day with exactly 240 screen-time minutes. -/
def exScreenIdeal : List ScreenTimeRecord := [⟨0, "App", 240, "Social"⟩]

/-- Five consecutive days at workout 20, then one day at workout 0. -/
def exHealthStreak : List HealthRecord :=
  [⟨0, 0, 0, 0, 20⟩, ⟨1, 0, 0, 0, 20⟩, ⟨2, 0, 0, 0, 20⟩,
   ⟨3, 0, 0, 0, 20⟩, ⟨4, 0, 0, 0, 20⟩, ⟨5, 0, 0, 0, 0⟩]

/-- A minimal non-empty screen-time dataset. -/
def exScreenOne : List ScreenTimeRecord := [⟨0, "A", 10, "Social"⟩]

/-- One day of 50000 steps. -/
def exHealthExtreme : List HealthRecord := [⟨0, 50000, 0, 0, 0⟩]

/-- Screen-time rows totalling A:100, B:250, C:40. -/
def exScreenABC : List ScreenTimeRecord :=
  [⟨0, "A", 100, "Social"⟩, ⟨1, "B", 250, "Social"⟩, ⟨2, "C", 40, "Social"⟩]

/-- 31 all-zero days (the prior 30-day window is non-empty and averages 0). -/
def exHealth31 : List HealthRecord := List.replicate 31 ⟨0, 0, 0, 0, 0⟩

/-- The value stored for key `k` in an association-list accumulator
(0 when absent); proof machinery for the totals lemmas. -/
def lookupVal [DecidableEq κ] (k : κ) (acc : List (κ × ℚ)) : ℚ :=
  ((acc.find? fun q => decide (q.1 = k)).map Prod.snd).getD 0

/-! ### Basic lemmas -/

theorem foldl_add_eq (f : α → ℚ) (l : List α) :
    ∀ a : ℚ, l.foldl (fun s d => s + f d) a = a + (l.map f).sum := by
  induction l with
  | nil => intro a; simp
  | cons x xs ih =>
    intro a
    simp only [List.foldl_cons, List.map_cons, List.sum_cons, ih]
    ring

theorem sumBy_eq_sum (f : α → ℚ) (l : List α) : sumBy f l = (l.map f).sum := by
  rw [sumBy, foldl_add_eq]; ring

theorem sumBy_nonneg (f : α → ℚ) (l : List α) (h : ∀ x ∈ l, 0 ≤ f x) :
    0 ≤ sumBy f l := by
  rw [sumBy_eq_sum]
  exact List.sum_nonneg (by simpa using h)

theorem sumBy_append (f : α → ℚ) (l₁ l₂ : List α) :
    sumBy f (l₁ ++ l₂) = sumBy f l₁ + sumBy f l₂ := by
  simp [sumBy_eq_sum]

theorem jsRound_nonneg {x : ℚ} (h : 0 ≤ x) : 0 ≤ jsRound x := by
  rw [jsRound]
  exact Int.le_floor.mpr (by push_cast; linarith)

/-! ### C3: empty inputs give the all-zero Metrics shape -/

/-- C3: when the health array or the screen-time array is empty,
`computeMetrics` returns the all-zero `Metrics` shape (all averages,
sub-scores, the wellness score, weekly score and change, and all streak
counters 0; all ranking/daily lists empty).  The embedding is a total
function, so no exception is possible on this or any other branch. -/
theorem computeMetrics_empty_shape (hd : List HealthRecord)
    (sd : List ScreenTimeRecord) (h : hd = [] ∨ sd = []) :
    computeMetrics hd sd =
      ⟨⟨0, 0, 0, 0, 0, 0⟩, ⟨[], [], [], 0⟩, ⟨0, 0, 0, 0, 0, 0, 0⟩,
        ⟨⟨0, 0, 0⟩, ⟨0, 0, 0⟩⟩⟩ := by
  rw [computeMetrics, if_pos h]

theorem computeMetrics_empty_shape_witness :
    (([] : List HealthRecord) = [] ∨ exScreenOne = []) ∧
    computeMetrics [] exScreenOne =
      ⟨⟨0, 0, 0, 0, 0, 0⟩, ⟨[], [], [], 0⟩, ⟨0, 0, 0, 0, 0, 0, 0⟩,
        ⟨⟨0, 0, 0⟩, ⟨0, 0, 0⟩⟩⟩ :=
  ⟨Or.inl rfl, computeMetrics_empty_shape [] exScreenOne (Or.inl rfl)⟩

/-! ### C1: the wellness score formula -/

/-- C1: on non-empty inputs (with a non-zero daily screen-time average, so
the claim's `ideal/averageDaily` quotient is the one the code takes), the
wellness score is `round(steps·0.30 + sleep·0.30 + workout·0.25 +
screenTime·0.15)` of sub-scores `min(100, avg/ideal·100)` — screen time
inverted — with ideals 10000 / 480 / 30 / 240; and the all-ideal example
input yields wellness score 100. -/
theorem wellness_score_formula :
    (∀ hd sd, hd ≠ [] → sd ≠ [] →
      (computeMetrics hd sd).screenTime.avgDaily ≠ 0 → wellnessFormulaSpec hd sd) ∧
    (computeMetrics exHealthIdeal exScreenIdeal).wellness.score = 100 := by
  constructor
  · intro hd sd h1 h2 h3
    have hcond : ¬(hd = [] ∨ sd = []) := by simp [h1, h2]
    rw [computeMetrics, if_neg hcond] at h3
    simp only [wellnessFormulaSpec, computeMetrics, if_neg hcond]
    refine ⟨rfl, rfl, rfl, ?_, rfl⟩
    rw [screenTimeScoreOf, jsOr1, if_neg h3]
  · norm_num [computeMetrics, exHealthIdeal, exScreenIdeal, wellnessScoreOf,
      stepsScoreOf, sleepScoreOf, workoutScoreOf, screenTimeScoreOf, avgStepsOf,
      avgSleepOf, avgWorkoutOf, avgDailyOf, dailyTotalsArrayOf, dailyTotalsList,
      totalsByKey, bumpKey, sumBy, jsOr1, jsRound, Int.floor_eq_iff,
      List.insertionSort, List.orderedInsert]

theorem wellness_score_formula_witness :
    (exHealthIdeal ≠ [] ∧ exScreenIdeal ≠ [] ∧
      (computeMetrics exHealthIdeal exScreenIdeal).screenTime.avgDaily ≠ 0) ∧
    wellnessFormulaSpec exHealthIdeal exScreenIdeal := by
  have h1 : exHealthIdeal ≠ [] := by simp [exHealthIdeal]
  have h2 : exScreenIdeal ≠ [] := by simp [exScreenIdeal]
  have h3 : (computeMetrics exHealthIdeal exScreenIdeal).screenTime.avgDaily ≠ 0 := by
    norm_num [computeMetrics, exHealthIdeal, exScreenIdeal, avgDailyOf,
      dailyTotalsArrayOf, dailyTotalsList, totalsByKey, bumpKey, sumBy, jsRound,
      Int.floor_eq_iff, List.insertionSort, List.orderedInsert]
  exact ⟨⟨h1, h2, h3⟩, wellness_score_formula.1 exHealthIdeal exScreenIdeal h1 h2 h3⟩

/-! ### Sorting a chronological dataset -/

theorem orderedInsert_append_of_not (r : α → α → Prop) [DecidableRel r] (x : α) :
    ∀ s : List α, (∀ b ∈ s, ¬ r x b) → s.orderedInsert r x = s ++ [x] := by
  intro s
  induction s with
  | nil => intro _; rfl
  | cons b t ih =>
    intro h
    rw [List.orderedInsert, if_neg (h b (by simp)), ih (fun c hc => h c (by simp [hc]))]
    rfl

theorem sortedHealthAsc_eq_self {l : List HealthRecord} (h : chronological l) :
    sortedHealthAsc l = l :=
  List.Sorted.insertionSort_eq (h.imp fun hab => le_of_lt hab)

theorem sortedHealthDesc_eq_reverse {l : List HealthRecord} (h : chronological l) :
    sortedHealthDesc l = l.reverse := by
  induction l with
  | nil => rfl
  | cons x xs ih =>
    rw [chronological, List.pairwise_cons] at h
    obtain ⟨hx, hxs⟩ := h
    have htail : List.insertionSort hrDateGE xs = xs.reverse := ih hxs
    rw [sortedHealthDesc, List.insertionSort, show List.insertionSort hrDateGE xs =
      xs.reverse from htail, orderedInsert_append_of_not, List.reverse_cons]
    intro b hb
    rw [hrDateGE]
    exact not_le.mpr (hx b (List.mem_reverse.mp hb))

/-! ### Streak scan lemmas -/

theorem bestStreakRun_append_singleton (p : α → Bool) (xs : List α) (x : α) :
    bestStreakRun p (xs ++ [x]) =
      (fun ab => if p x then (ab.1 + 1, max ab.2 (ab.1 + 1)) else (0, ab.2))
        (bestStreakRun p xs) := by
  rw [bestStreakRun, bestStreakRun, List.foldl_append, List.foldl_cons, List.foldl_nil]

theorem bestStreakRun_fst (p : α → Bool) (l : List α) :
    (bestStreakRun p l).1 = (l.reverse.takeWhile p).length := by
  induction l using List.reverseRecOn with
  | nil => rfl
  | append_singleton xs x ih =>
    rw [bestStreakRun_append_singleton, List.reverse_append]
    by_cases hx : p x
    · simp [hx, List.takeWhile_cons, ih]
    · simp [hx, List.takeWhile_cons]

theorem bestStreakRun_fst_le_snd (p : α → Bool) (l : List α) :
    (bestStreakRun p l).1 ≤ (bestStreakRun p l).2 := by
  rw [bestStreakRun]
  have : ∀ ab : ℕ × ℕ, ab.1 ≤ ab.2 →
      (l.foldl (fun ab d => if p d then (ab.1 + 1, max ab.2 (ab.1 + 1))
        else (0, ab.2)) ab).1 ≤
      (l.foldl (fun ab d => if p d then (ab.1 + 1, max ab.2 (ab.1 + 1))
        else (0, ab.2)) ab).2 := by
    induction l with
    | nil => intro ab h; exact h
    | cons y ys ih =>
      intro ab h
      rw [List.foldl_cons]
      by_cases hy : p y
      · exact ih _ (by simp [hy])
      · exact ih _ (by simp [hy, le_trans h])
  exact this (0, 0) le_rfl

/-! ### The streak example input -/

theorem exHealthStreak_chron : chronological exHealthStreak := by
  simp only [chronological, exHealthStreak]
  norm_num [List.pairwise_cons]

theorem exHealthStreak_ne : exHealthStreak ≠ [] := by simp [exHealthStreak]

theorem exScreenOne_ne : exScreenOne ≠ [] := by simp [exScreenOne]

theorem exStreak_cond : ¬(exHealthStreak = [] ∨ exScreenOne = []) := by
  simp [exHealthStreak, exScreenOne]

/-! ### C2: streak semantics -/

/-- C2: on a non-empty chronological dataset (and non-empty screen-time
input, without which `computeMetrics` takes its all-zero branch), the
current streak of each habit counts qualifying days backward from the most
recent record and the best streak is the maximum forward run
(thresholds workout ≥ 15, sleep ≥ 420, steps ≥ 8000); the 5×(workout 20)
then workout-0 example reports current 0 and best 5. -/
theorem streaks_match :
    (∀ hd sd, hd ≠ [] → sd ≠ [] → chronological hd → streaksMatchSpec hd sd) ∧
    ((computeMetrics exHealthStreak exScreenOne).streaks.current.workout = 0 ∧
     (computeMetrics exHealthStreak exScreenOne).streaks.best.workout = 5) := by
  constructor
  · intro hd sd h1 h2 hc
    have hcond : ¬(hd = [] ∨ sd = []) := by simp [h1, h2]
    simp only [streaksMatchSpec, computeMetrics, if_neg hcond,
      sortedHealthDesc_eq_reverse hc, sortedHealthAsc_eq_self hc]
    exact ⟨rfl, rfl, rfl, rfl, rfl, rfl⟩
  · constructor
    · rw [computeMetrics, if_neg exStreak_cond]
      show countWhile workoutQualifies (sortedHealthDesc exHealthStreak) = 0
      rw [sortedHealthDesc_eq_reverse exHealthStreak_chron]
      norm_num [exHealthStreak, countWhile, List.takeWhile_cons, workoutQualifies]
    · rw [computeMetrics, if_neg exStreak_cond]
      show (bestStreakRun workoutQualifies (sortedHealthAsc exHealthStreak)).2 = 5
      rw [sortedHealthAsc_eq_self exHealthStreak_chron]
      norm_num [exHealthStreak, bestStreakRun, workoutQualifies]

theorem streaks_match_witness :
    (exHealthStreak ≠ [] ∧ exScreenOne ≠ [] ∧ chronological exHealthStreak) ∧
    streaksMatchSpec exHealthStreak exScreenOne :=
  ⟨⟨exHealthStreak_ne, exScreenOne_ne, exHealthStreak_chron⟩,
    streaks_match.1 exHealthStreak exScreenOne exHealthStreak_ne exScreenOne_ne
      exHealthStreak_chron⟩

/-! ### C4: current streak never exceeds best streak -/

/-- C4: on any valid input (non-empty, chronological as the data model
requires, with non-empty screen-time data), each habit's current streak is
at most its best streak; both are natural numbers, hence at least 0. -/
theorem current_le_best (hd : List HealthRecord) (sd : List ScreenTimeRecord)
    (h1 : hd ≠ []) (h2 : sd ≠ []) (hc : chronological hd) :
    (computeMetrics hd sd).streaks.current.workout ≤
      (computeMetrics hd sd).streaks.best.workout ∧
    (computeMetrics hd sd).streaks.current.sleep ≤
      (computeMetrics hd sd).streaks.best.sleep ∧
    (computeMetrics hd sd).streaks.current.steps ≤
      (computeMetrics hd sd).streaks.best.steps := by
  have hcond : ¬(hd = [] ∨ sd = []) := by simp [h1, h2]
  simp only [computeMetrics, if_neg hcond, sortedHealthDesc_eq_reverse hc,
    sortedHealthAsc_eq_self hc]
  refine ⟨?_, ?_, ?_⟩ <;>
    · rw [countWhile, ← bestStreakRun_fst]
      exact bestStreakRun_fst_le_snd _ _

theorem current_le_best_witness :
    (exHealthStreak ≠ [] ∧ exScreenOne ≠ [] ∧ chronological exHealthStreak) ∧
    ((computeMetrics exHealthStreak exScreenOne).streaks.current.workout ≤
      (computeMetrics exHealthStreak exScreenOne).streaks.best.workout ∧
     (computeMetrics exHealthStreak exScreenOne).streaks.current.sleep ≤
      (computeMetrics exHealthStreak exScreenOne).streaks.best.sleep ∧
     (computeMetrics exHealthStreak exScreenOne).streaks.current.steps ≤
      (computeMetrics exHealthStreak exScreenOne).streaks.best.steps) :=
  ⟨⟨exHealthStreak_ne, exScreenOne_ne, exHealthStreak_chron⟩,
    current_le_best exHealthStreak exScreenOne exHealthStreak_ne exScreenOne_ne
      exHealthStreak_chron⟩

/-! ### Non-negativity of accumulated totals and averages -/

theorem bumpKey_nonneg [DecidableEq κ] (acc : List (κ × ℚ)) (k : κ) (v : ℚ)
    (hacc : ∀ p ∈ acc, 0 ≤ p.2) (hv : 0 ≤ v) :
    ∀ p ∈ bumpKey acc k v, 0 ≤ p.2 := by
  induction acc with
  | nil =>
    intro p hp
    simp only [bumpKey, List.mem_singleton] at hp
    simp [hp, hv]
  | cons q rest ih =>
    intro p hp
    obtain ⟨a, t⟩ := q
    rw [bumpKey] at hp
    by_cases hak : a = k
    · rw [if_pos hak] at hp
      rcases List.mem_cons.mp hp with h | h
      · have ht : 0 ≤ t := hacc (a, t) (by simp)
        simp [h]
        linarith
      · exact hacc p (List.mem_cons_of_mem _ h)
    · rw [if_neg hak] at hp
      rcases List.mem_cons.mp hp with h | h
      · exact h ▸ hacc (a, t) (by simp)
      · exact ih (fun q hq => hacc q (List.mem_cons_of_mem _ hq)) p h

theorem totalsByKey_nonneg [DecidableEq κ] (key : α → κ) (val : α → ℚ)
    (l : List α) (h : ∀ x ∈ l, 0 ≤ val x) :
    ∀ p ∈ totalsByKey key val l, 0 ≤ p.2 := by
  rw [totalsByKey]
  have main : ∀ (l' : List α) (acc : List (κ × ℚ)),
      (∀ x ∈ l', 0 ≤ val x) → (∀ p ∈ acc, 0 ≤ p.2) →
      ∀ p ∈ l'.foldl (fun acc it => bumpKey acc (key it) (val it)) acc, 0 ≤ p.2 := by
    intro l'
    induction l' with
    | nil => intro acc _ hacc p hp; exact hacc p hp
    | cons x xs ih =>
      intro acc hl hacc p hp
      rw [List.foldl_cons] at hp
      exact ih _ (fun y hy => hl y (List.mem_cons_of_mem _ hy))
        (bumpKey_nonneg acc (key x) (val x) hacc (hl x (by simp))) p hp
  exact main l [] h (by simp)

theorem dailyTotalsArray_nonneg (sd : List ScreenTimeRecord)
    (h : ∀ r ∈ sd, 0 ≤ r.minutes) :
    ∀ d ∈ dailyTotalsArrayOf sd, 0 ≤ d.total := by
  intro d hd
  rw [dailyTotalsArrayOf] at hd
  have hd' := (List.perm_insertionSort dateTotalLE _).subset hd
  obtain ⟨p, hp, rfl⟩ := List.mem_map.mp hd'
  exact totalsByKey_nonneg _ _ sd h p hp

theorem avgDaily_nonneg (sd : List ScreenTimeRecord)
    (h : ∀ r ∈ sd, 0 ≤ r.minutes) : 0 ≤ avgDailyOf sd := by
  rw [avgDailyOf]
  refine jsRound_nonneg (div_nonneg ?_ (by positivity))
  exact sumBy_nonneg _ _ (dailyTotalsArray_nonneg sd h)

theorem jsOr1_pos (n : ℤ) (h : 0 ≤ n) : 0 < jsOr1 n := by
  rw [jsOr1]
  by_cases h0 : n = 0
  · simp [h0]
  · rw [if_neg h0]
    exact_mod_cast lt_of_le_of_ne h (Ne.symm h0)

theorem avg_nonneg_of (f : HealthRecord → ℚ) (hd : List HealthRecord)
    (h : ∀ r ∈ hd, 0 ≤ f r) :
    0 ≤ jsRound (sumBy f hd / (hd.length : ℚ)) :=
  jsRound_nonneg (div_nonneg (sumBy_nonneg f hd h) (by positivity))

theorem ratio_score_bounds {a : ℚ} (ideal : ℚ) (hi : 0 < ideal) (ha : 0 ≤ a) :
    0 ≤ min 100 (a / ideal * 100) ∧ min 100 (a / ideal * 100) ≤ 100 :=
  ⟨le_min (by norm_num) (by positivity), min_le_left _ _⟩

/-! ### C5: sub-scores are clamped to [0, 100] -/

/-- C5: for non-empty inputs with non-negative steps, sleep, workout and
screen-time minutes, each of the four wellness sub-scores lies in `[0, 100]`;
and the 50000-steps example yields a steps sub-score of exactly 100. -/
theorem subscores_bounded :
    (∀ hd sd, hd ≠ [] → sd ≠ [] →
      (∀ r ∈ hd, 0 ≤ r.steps ∧ 0 ≤ r.sleep ∧ 0 ≤ r.workout) →
      (∀ r ∈ sd, 0 ≤ r.minutes) → subScoresBounded hd sd) ∧
    (computeMetrics exHealthExtreme exScreenOne).wellness.stepsScore = 100 := by
  constructor
  · intro hd sd h1 h2 hh hs
    have hcond : ¬(hd = [] ∨ sd = []) := by simp [h1, h2]
    simp only [subScoresBounded, computeMetrics, if_neg hcond]
    refine ⟨?_, ?_, ?_, ?_⟩
    · rw [stepsScoreOf]
      exact ratio_score_bounds 10000 (by norm_num)
        (by exact_mod_cast avg_nonneg_of _ hd (fun r hr => (hh r hr).1))
    · rw [sleepScoreOf]
      exact ratio_score_bounds 480 (by norm_num)
        (by exact_mod_cast avg_nonneg_of _ hd (fun r hr => (hh r hr).2.1))
    · rw [workoutScoreOf]
      exact ratio_score_bounds 30 (by norm_num)
        (by exact_mod_cast avg_nonneg_of _ hd (fun r hr => (hh r hr).2.2))
    · rw [screenTimeScoreOf]
      have hpos : 0 < jsOr1 (avgDailyOf sd) := jsOr1_pos _ (avgDaily_nonneg sd hs)
      constructor
      · exact le_min (by norm_num) (by positivity)
      · exact min_le_left _ _
  · rw [computeMetrics, if_neg (by simp [exHealthExtreme, exScreenOne])]
    show stepsScoreOf exHealthExtreme = 100
    norm_num [stepsScoreOf, avgStepsOf, exHealthExtreme, sumBy, jsRound,
      Int.floor_eq_iff]

theorem subscores_bounded_witness :
    (exHealthExtreme ≠ [] ∧ exScreenOne ≠ [] ∧
      (∀ r ∈ exHealthExtreme, 0 ≤ r.steps ∧ 0 ≤ r.sleep ∧ 0 ≤ r.workout) ∧
      (∀ r ∈ exScreenOne, 0 ≤ r.minutes)) ∧
    subScoresBounded exHealthExtreme exScreenOne := by
  have h1 : exHealthExtreme ≠ [] := by simp [exHealthExtreme]
  have h2 : exScreenOne ≠ [] := by simp [exScreenOne]
  have hh : ∀ r ∈ exHealthExtreme, 0 ≤ r.steps ∧ 0 ≤ r.sleep ∧ 0 ≤ r.workout := by
    intro r hr
    simp only [exHealthExtreme, List.mem_singleton] at hr
    subst hr
    norm_num
  have hs : ∀ r ∈ exScreenOne, 0 ≤ r.minutes := by
    intro r hr
    simp only [exScreenOne, List.mem_singleton] at hr
    subst hr
    norm_num
  exact ⟨⟨h1, h2, hh, hs⟩, subscores_bounded.1 exHealthExtreme exScreenOne h1 h2 hh hs⟩

/-! ### Association-list accumulator lemmas -/

theorem sumBy_cons (f : α → ℚ) (x : α) (l : List α) :
    sumBy f (x :: l) = f x + sumBy f l := by
  simp [sumBy_eq_sum]

theorem keySum_cons [DecidableEq κ] (key : α → κ) (val : α → ℚ) (k : κ) (x : α)
    (l : List α) :
    keySum key val k (x :: l) =
      (if key x = k then val x else 0) + keySum key val k l := by
  by_cases h : key x = k
  · simp [keySum, List.filter_cons, h, sumBy_cons]
  · simp [keySum, List.filter_cons, h]

theorem lookupVal_nil [DecidableEq κ] (k : κ) : lookupVal k [] = 0 := rfl

theorem lookupVal_cons_self [DecidableEq κ] (k : κ) (t : ℚ) (acc : List (κ × ℚ)) :
    lookupVal k ((k, t) :: acc) = t := by
  rw [lookupVal, List.find?_cons_of_pos _ (by simp)]
  rfl

theorem lookupVal_cons_ne [DecidableEq κ] (a : κ × ℚ) (acc : List (κ × ℚ)) (k : κ)
    (h : a.1 ≠ k) : lookupVal k (a :: acc) = lookupVal k acc := by
  rw [lookupVal, lookupVal, List.find?_cons_of_neg _ (by simp [h])]

theorem lookupVal_bumpKey_eq [DecidableEq κ] (acc : List (κ × ℚ)) (k : κ) (v : ℚ) :
    lookupVal k (bumpKey acc k v) = lookupVal k acc + v := by
  induction acc with
  | nil =>
    show lookupVal k [(k, v)] = lookupVal k [] + v
    rw [lookupVal_cons_self, lookupVal_nil, zero_add]
  | cons q rest ih =>
    obtain ⟨a, t⟩ := q
    by_cases hak : a = k
    · subst hak
      rw [bumpKey, if_pos rfl, lookupVal_cons_self, lookupVal_cons_self]
    · rw [bumpKey, if_neg hak, lookupVal_cons_ne (a, t) _ k hak,
        lookupVal_cons_ne (a, t) _ k hak, ih]

theorem lookupVal_bumpKey_ne [DecidableEq κ] (acc : List (κ × ℚ)) (k : κ) (v : ℚ)
    (k' : κ) (h : k' ≠ k) : lookupVal k' (bumpKey acc k v) = lookupVal k' acc := by
  induction acc with
  | nil =>
    show lookupVal k' [(k, v)] = lookupVal k' []
    rw [lookupVal_cons_ne (k, v) _ k' (fun e => h e.symm)]
  | cons q rest ih =>
    obtain ⟨a, t⟩ := q
    by_cases hak : a = k
    · subst hak
      rw [bumpKey, if_pos rfl, lookupVal_cons_ne (a, t + v) _ k' (fun e => h e.symm),
        lookupVal_cons_ne (a, t) _ k' (fun e => h e.symm)]
    · rw [bumpKey, if_neg hak]
      by_cases ha' : a = k'
      · subst ha'
        rw [lookupVal_cons_self, lookupVal_cons_self]
      · rw [lookupVal_cons_ne (a, t) _ k' ha', lookupVal_cons_ne (a, t) _ k' ha', ih]

theorem mem_keys_bumpKey [DecidableEq κ] (acc : List (κ × ℚ)) (k : κ) (v : ℚ)
    (k' : κ) :
    k' ∈ (bumpKey acc k v).map Prod.fst ↔ k' ∈ acc.map Prod.fst ∨ k' = k := by
  induction acc with
  | nil => simp [bumpKey]
  | cons q rest ih =>
    obtain ⟨a, t⟩ := q
    by_cases hak : a = k
    · subst hak
      rw [bumpKey, if_pos rfl]
      simp only [List.map_cons, List.mem_cons]
      tauto
    · rw [bumpKey, if_neg hak]
      simp only [List.map_cons, List.mem_cons, ih]
      tauto

theorem nodup_keys_bumpKey [DecidableEq κ] (acc : List (κ × ℚ)) (k : κ) (v : ℚ)
    (h : (acc.map Prod.fst).Nodup) : ((bumpKey acc k v).map Prod.fst).Nodup := by
  induction acc with
  | nil => simp [bumpKey]
  | cons q rest ih =>
    obtain ⟨a, t⟩ := q
    rw [List.map_cons, List.nodup_cons] at h
    obtain ⟨ha, hrest⟩ := h
    by_cases hak : a = k
    · subst hak
      rw [bumpKey, if_pos rfl, List.map_cons, List.nodup_cons]
      exact ⟨ha, hrest⟩
    · rw [bumpKey, if_neg hak, List.map_cons, List.nodup_cons]
      refine ⟨fun hmem => ?_, ih hrest⟩
      rcases (mem_keys_bumpKey rest k v a).mp hmem with h | h
      · exact ha h
      · exact hak h

theorem lookupVal_totals_aux [DecidableEq κ] (key : α → κ) (val : α → ℚ)
    (l : List α) :
    ∀ (acc : List (κ × ℚ)) (k : κ),
      lookupVal k (l.foldl (fun acc it => bumpKey acc (key it) (val it)) acc) =
        lookupVal k acc + keySum key val k l := by
  induction l with
  | nil => intro acc k; simp [keySum, sumBy]
  | cons x xs ih =>
    intro acc k
    rw [List.foldl_cons, ih, keySum_cons]
    by_cases h : key x = k
    · rw [if_pos h, h, lookupVal_bumpKey_eq]
      ring
    · rw [if_neg h, lookupVal_bumpKey_ne acc (key x) (val x) k (fun e => h e.symm)]
      ring

theorem mem_keys_totals_aux [DecidableEq κ] (key : α → κ) (val : α → ℚ)
    (l : List α) :
    ∀ (acc : List (κ × ℚ)) (k : κ),
      k ∈ ((l.foldl (fun acc it => bumpKey acc (key it) (val it)) acc).map Prod.fst) ↔
        k ∈ acc.map Prod.fst ∨ k ∈ l.map key := by
  induction l with
  | nil => intro acc k; simp
  | cons x xs ih =>
    intro acc k
    rw [List.foldl_cons, ih, mem_keys_bumpKey]
    simp only [List.map_cons, List.mem_cons]
    tauto

theorem nodup_keys_totals [DecidableEq κ] (key : α → κ) (val : α → ℚ) (l : List α) :
    ((totalsByKey key val l).map Prod.fst).Nodup := by
  rw [totalsByKey]
  have main : ∀ (l' : List α) (acc : List (κ × ℚ)), (acc.map Prod.fst).Nodup →
      ((l'.foldl (fun acc it => bumpKey acc (key it) (val it)) acc).map Prod.fst).Nodup := by
    intro l'
    induction l' with
    | nil => intro acc h; exact h
    | cons x xs ih =>
      intro acc h
      rw [List.foldl_cons]
      exact ih _ (nodup_keys_bumpKey acc (key x) (val x) h)
  exact main l [] (by simp)

theorem lookupVal_of_mem_nodup [DecidableEq κ] :
    ∀ (acc : List (κ × ℚ)), (acc.map Prod.fst).Nodup →
      ∀ p ∈ acc, lookupVal p.1 acc = p.2 := by
  intro acc
  induction acc with
  | nil => simp
  | cons q rest ih =>
    intro hnd p hp
    obtain ⟨a, t⟩ := q
    rw [List.map_cons, List.nodup_cons] at hnd
    obtain ⟨ha, hrest⟩ := hnd
    rcases List.mem_cons.mp hp with rfl | hp'
    · exact lookupVal_cons_self a t rest
    · have hne : (a, t).1 ≠ p.1 := fun e => ha (e ▸ List.mem_map_of_mem Prod.fst hp')
      rw [lookupVal_cons_ne (a, t) rest p.1 hne]
      exact ih hrest p hp'

theorem totalsByKey_val [DecidableEq κ] (key : α → κ) (val : α → ℚ) (l : List α) :
    ∀ p ∈ totalsByKey key val l, p.2 = keySum key val p.1 l := by
  intro p hp
  have h1 := lookupVal_of_mem_nodup _ (nodup_keys_totals key val l) p hp
  have h2 := lookupVal_totals_aux key val l [] p.1
  rw [totalsByKey] at h1
  rw [h1, lookupVal_nil, zero_add] at h2
  exact h2

theorem totalsByKey_keys [DecidableEq κ] (key : α → κ) (val : α → ℚ) (l : List α)
    (k : κ) :
    k ∈ (totalsByKey key val l).map Prod.fst ↔ k ∈ l.map key := by
  rw [totalsByKey, mem_keys_totals_aux]
  simp

/-! ### Stability of the descending-by-minutes sort -/

theorem filter_minEq_orderedInsert (x : AppMinutes) (s : List AppMinutes) (m : ℚ) :
    ((s.orderedInsert appMinGE x).filter fun y => decide (y.minutes = m)) =
      if x.minutes = m then
        x :: s.filter fun y => decide (y.minutes = m)
      else s.filter fun y => decide (y.minutes = m) := by
  induction s with
  | nil => by_cases h : x.minutes = m <;> simp [List.orderedInsert, h]
  | cons b t ih =>
    rw [List.orderedInsert]
    by_cases hle : appMinGE x b
    · rw [if_pos hle]
      by_cases h : x.minutes = m <;> simp [List.filter_cons, h]
    · rw [if_neg hle]
      have hlt : x.minutes < b.minutes := not_le.mp hle
      by_cases h : x.minutes = m
      · have hb : ¬b.minutes = m := by
          rw [← h]
          exact (ne_of_gt hlt)
        simp [List.filter_cons, hb, h, ih]
      · by_cases hb : b.minutes = m <;> simp [List.filter_cons, hb, h, ih]

theorem filter_minEq_insertionSort (l : List AppMinutes) (m : ℚ) :
    ((List.insertionSort appMinGE l).filter fun y => decide (y.minutes = m)) =
      l.filter fun y => decide (y.minutes = m) := by
  induction l with
  | nil => rfl
  | cons a t ih =>
    rw [List.insertionSort, filter_minEq_orderedInsert]
    by_cases h : a.minutes = m <;> simp [List.filter_cons, h, ih]

/-! ### C6: the per-app ranking -/

/-- C6: `computeAllAppTotals` sums minutes per app over all records, sorts
descending by minutes keeping tied apps in first-occurrence order (stated as:
filtering the ranking at any fixed minutes value returns exactly the
insertion-ordered totals with that value), and is exhaustive: an app appears
in the ranking iff it appears in the input, and its ranked minutes equal the
sum of the `minutes` fields of all its records. -/
theorem app_ranking_spec : ∀ sd : List ScreenTimeRecord, rankingSpec sd := by
  intro sd
  have hperm : List.Perm (computeAllAppTotals sd)
      ((appTotalsList sd).map (fun p => AppMinutes.mk p.1 p.2)) :=
    List.perm_insertionSort _ _
  refine ⟨?_, ?_, ?_, ?_⟩
  · intro p hp
    obtain ⟨q, hq, hpq⟩ := List.mem_map.mp (hperm.subset hp)
    have hq2 : q ∈ totalsByKey (fun x => x.app) (fun x => x.minutes) sd := hq
    have hval := totalsByKey_val (fun x => x.app) (fun x => x.minutes) sd q hq2
    rw [← hpq]
    exact hval
  · exact List.sorted_insertionSort appMinGE _
  · intro m
    exact filter_minEq_insertionSort _ m
  · intro a
    constructor
    · rintro ⟨it, hit, rfl⟩
      have hk : it.app ∈ (totalsByKey (fun x => x.app) (fun x => x.minutes) sd).map
          Prod.fst :=
        (totalsByKey_keys (fun x => x.app) (fun x => x.minutes) sd it.app).mpr
          (List.mem_map_of_mem _ hit)
      have hk2 : it.app ∈ (appTotalsList sd).map Prod.fst := hk
      obtain ⟨p, hp, he⟩ := List.mem_map.mp hk2
      refine ⟨p.2, hperm.mem_iff.mpr (List.mem_map.mpr ⟨p, hp, ?_⟩)⟩
      rw [he]
    · rintro ⟨m, hm⟩
      obtain ⟨q, hq, he⟩ := List.mem_map.mp (hperm.subset hm)
      have hk : a ∈ (appTotalsList sd).map Prod.fst := by
        have hqa : q.1 = a := congrArg AppMinutes.app he
        exact hqa ▸ List.mem_map_of_mem _ hq
      have hk2 : a ∈ (totalsByKey (fun x => x.app) (fun x => x.minutes) sd).map
          Prod.fst := hk
      obtain ⟨it, hit, hia⟩ := List.mem_map.mp
        ((totalsByKey_keys (fun x => x.app) (fun x => x.minutes) sd a).mp hk2)
      exact ⟨it, hit, hia⟩

theorem app_ranking_spec_witness : rankingSpec exScreenABC :=
  app_ranking_spec exScreenABC

/-! ### C8: the most-used-app insight -/

theorem head_ge_of_sorted {y : AppMinutes} {t : List AppMinutes}
    (hs : (y :: t).Sorted appMinGE) : ∀ q ∈ y :: t, q.minutes ≤ y.minutes := by
  intro q hq
  rcases List.mem_cons.mp hq with rfl | hq'
  · exact le_rfl
  · exact List.rel_of_sorted_cons hs q hq'

/-- C8: on any screen-time input whose per-app totals are A:100, B:250, C:40,
the question "Which app do I use the most?" fires the most/least rule (the
lowercased question contains "most" and "use"), and the returned
`mostUsedApp` is `{app: "B", minutes: 250}`, the head of the full descending
ranking. -/
theorem most_used_app_exact (mets : Metrics) (hd : List HealthRecord)
    (sd : List ScreenTimeRecord)
    (h : List.Perm (appTotalsList sd) [("A", 100), ("B", 250), ("C", 40)]) :
    (extractComputedInsights "Which app do I use the most?" mets hd sd).mostUsedApp =
      some ⟨"B", 250⟩ := by
  have hmost : strIncludes (jsLower "Which app do I use the most?") "most" = true := by
    decide
  have hleast : strIncludes (jsLower "Which app do I use the most?") "least" = false := by
    decide
  have huse : strIncludes (jsLower "Which app do I use the most?") "use" = true := by
    decide
  have hwd : strIncludes (jsLower "Which app do I use the most?") "weekday" = false := by
    decide
  have hwe : strIncludes (jsLower "Which app do I use the most?") "weekend" = false := by
    decide
  have hwd2 : strIncludes (jsLower "Which app do I use the most?") "week day" = false := by
    decide
  have hwe2 : strIncludes (jsLower "Which app do I use the most?") "week end" = false := by
    decide
  have htr : strIncludes (jsLower "Which app do I use the most?") "trend" = false := by
    decide
  have hch : strIncludes (jsLower "Which app do I use the most?") "change" = false := by
    decide
  have hinc : strIncludes (jsLower "Which app do I use the most?") "increase" = false := by
    decide
  have hdec : strIncludes (jsLower "Which app do I use the most?") "decrease" = false := by
    decide
  have hex : strIncludes (jsLower "Which app do I use the most?") "exercise" = false := by
    decide
  have hwo : strIncludes (jsLower "Which app do I use the most?") "workout" = false := by
    decide
  have hhead : (computeAllAppTotals sd).head? = some ⟨"B", 250⟩ := by
    have hperm : List.Perm (computeAllAppTotals sd)
        [AppMinutes.mk "A" 100, AppMinutes.mk "B" 250, AppMinutes.mk "C" 40] := by
      have := (List.perm_insertionSort appMinGE
        ((appTotalsList sd).map (fun p => AppMinutes.mk p.1 p.2)))
      exact this.trans (h.map (fun p => AppMinutes.mk p.1 p.2))
    have hB : AppMinutes.mk "B" 250 ∈ computeAllAppTotals sd :=
      hperm.mem_iff.mpr (by simp)
    have hs : (computeAllAppTotals sd).Sorted appMinGE :=
      List.sorted_insertionSort appMinGE _
    cases hr : computeAllAppTotals sd with
    | nil => rw [hr] at hB; simp at hB
    | cons y t =>
      rw [hr] at hB hs hperm
      have hy250 : (250 : ℚ) ≤ y.minutes := head_ge_of_sorted hs _ hB
      have hymem : y ∈ [AppMinutes.mk "A" 100, AppMinutes.mk "B" 250,
          AppMinutes.mk "C" 40] := hperm.subset (by simp)
      simp only [List.mem_cons, List.not_mem_nil, or_false] at hymem
      rcases hymem with rfl | rfl | rfl
      · norm_num at hy250
      · rfl
      · norm_num at hy250
  simp only [extractComputedInsights, hmost, hleast, huse, hwd, hwe, hwd2, hwe2,
    htr, hch, hinc, hdec, hex, hwo, Bool.false_or, Bool.or_false, Bool.true_or,
    Bool.or_true, Bool.true_and, Bool.false_and, Bool.and_false, Bool.and_true,
    if_true, if_false, Bool.false_eq_true, ite_false, ite_true]
  cases extractAppName "Which app do I use the most?" sd <;> simp [hhead]

theorem most_used_app_exact_witness :
    List.Perm (appTotalsList exScreenABC) [("A", 100), ("B", 250), ("C", 40)] ∧
    (extractComputedInsights "Which app do I use the most?"
        ⟨⟨0, 0, 0, 0, 0, 0⟩, ⟨[], [], [], 0⟩, ⟨0, 0, 0, 0, 0, 0, 0⟩,
          ⟨⟨0, 0, 0⟩, ⟨0, 0, 0⟩⟩⟩ [] exScreenABC).mostUsedApp =
      some ⟨"B", 250⟩ := by
  have hp : List.Perm (appTotalsList exScreenABC) [("A", 100), ("B", 250), ("C", 40)] := by
    rw [show appTotalsList exScreenABC = [("A", 100), ("B", 250), ("C", 40)] from rfl]
  exact ⟨hp, most_used_app_exact _ [] exScreenABC hp⟩

/-! ### C7: the 30-day trend computation -/

/-- C7: with at least 31 records the prior 30-day window is non-empty, so
`computeTrendStats` returns a result whose `change` is the recent 30-day
(rounded) average minus the previous 30-day (rounded) average, whose
`percentChange` is `round(change/previousAvg·100)` when `previousAvg > 0`
and exactly 0 when `previousAvg = 0` (exact rational arithmetic — no NaN or
Infinity exists in this model), and whose trend label is the three-way
increasing/decreasing/stable split on the sign of `change`. -/
theorem trend_stats_spec (hd : List HealthRecord) (m : HMetric)
    (h : 31 ≤ hd.length) : trendSpecHolds hd m := by
  have hprev : jsSliceWindow 60 30 hd ≠ [] := by
    rw [← List.length_pos]
    rw [jsSliceWindow]
    simp only [List.length_take, List.length_drop]
    omega
  simp only [trendSpecHolds, computeTrendStats, if_neg hprev]
  refine ⟨_, rfl, rfl, rfl, rfl, ?_, ?_, ?_, ?_, ?_⟩ <;> dsimp only
  · intro hpos
    simp [if_pos hpos]
  · intro hzero
    rw [hzero]
    simp
  · intro hpos
    simp only [if_pos hpos]
  · intro hneg
    rw [if_neg (by omega : ¬(0 : ℤ) <
        jsRound (sumBy (metricVal m) (jsSliceLast 30 hd) / ((jsSliceLast 30 hd).length : ℚ)) -
        jsRound (sumBy (metricVal m) (jsSliceWindow 60 30 hd) /
          ((jsSliceWindow 60 30 hd).length : ℚ))), if_pos hneg]
  · intro hzero
    rw [hzero]
    simp

theorem trend_stats_spec_witness :
    31 ≤ exHealth31.length ∧ trendSpecHolds exHealth31 HMetric.steps :=
  ⟨by simp [exHealth31], trend_stats_spec exHealth31 HMetric.steps (by simp [exHealth31])⟩

/-! ### C9: the weekday/weekend split -/

theorem length_filter_not (p : α → Bool) (l : List α) :
    (l.filter fun x => !p x).length + (l.filter p).length = l.length := by
  induction l with
  | nil => rfl
  | cons x xs ih =>
    by_cases hx : p x <;> simp [List.filter_cons, hx, ← ih] <;> omega

theorem sumBy_filter_not (f : α → ℚ) (p : α → Bool) (l : List α) :
    sumBy f (l.filter fun x => !p x) + sumBy f (l.filter p) = sumBy f l := by
  induction l with
  | nil => simp [sumBy]
  | cons x xs ih =>
    by_cases hx : p x <;> simp [List.filter_cons, hx, sumBy_cons, ← ih] <;> ring

theorem sumBy_map (f : β → ℚ) (g : α → β) (l : List α) :
    sumBy f (l.map g) = sumBy (fun x => f (g x)) l := by
  rw [sumBy_eq_sum, sumBy_eq_sum, List.map_map]
  rfl

/-- C9: for every app name and screen-time input, the weekday/weekend insight
puts each record of the app (name compared case-insensitively) in exactly one
bucket — the weekend bucket iff its date is Saturday or Sunday — and reports
per bucket the day count, total minutes, average `round(total/count)` (0 for
an empty bucket), and a chronologically sorted daily breakdown; weekday and
weekend totals add up to the app's overall total. -/
theorem weekday_weekend_split :
    ∀ (appName : String) (sd : List ScreenTimeRecord),
      weekdayWeekendSpec appName sd := by
  intro a sd
  simp only [weekdayWeekendSpec, computeAppWeekdayWeekendStats]
  refine ⟨?_, ?_, trivial, trivial, trivial, trivial, trivial, trivial,
    List.perm_insertionSort _ _, List.perm_insertionSort _ _,
    List.sorted_insertionSort _ _, List.sorted_insertionSort _ _, ?_⟩
  · -- bucket sizes partition the app's records
    rw [weekdayDataOf, weekendDataOf, List.length_map, List.length_map]
    exact length_filter_not _ _
  · -- membership: weekend iff Saturday/Sunday
    intro it hit
    constructor
    · constructor
      · intro hmem
        have hmem' := (List.perm_insertionSort dayMinLE _).subset hmem
        rw [weekendDataOf] at hmem'
        obtain ⟨it', hit', he⟩ := List.mem_map.mp hmem'
        obtain ⟨_, hwk⟩ := List.mem_filter.mp hit'
        have : it'.date = it.date := congrArg DayMinutes.date he
        rw [← this]
        exact hwk
      · intro hwk
        refine (List.perm_insertionSort dayMinLE _).mem_iff.mpr ?_
        rw [weekendDataOf]
        exact List.mem_map.mpr ⟨it, List.mem_filter.mpr ⟨hit, hwk⟩, rfl⟩
    · constructor
      · intro hmem
        have hmem' := (List.perm_insertionSort dayMinLE _).subset hmem
        rw [weekdayDataOf] at hmem'
        obtain ⟨it', hit', he⟩ := List.mem_map.mp hmem'
        obtain ⟨_, hwk⟩ := List.mem_filter.mp hit'
        have hd' : it'.date = it.date := congrArg DayMinutes.date he
        rw [Bool.not_eq_true'] at hwk
        rw [← hd']
        exact hwk
      · intro hwk
        refine (List.perm_insertionSort dayMinLE _).mem_iff.mpr ?_
        rw [weekdayDataOf]
        refine List.mem_map.mpr ⟨it, List.mem_filter.mpr ⟨hit, ?_⟩, rfl⟩
        rw [Bool.not_eq_true', hwk]
  · -- totals add up
    rw [weekdayDataOf, weekendDataOf, sumBy_map, sumBy_map]
    exact sumBy_filter_not _ _ _

theorem weekday_weekend_split_witness : weekdayWeekendSpec "A" exScreenABC :=
  weekday_weekend_split "A" exScreenABC

/-! ### Store lemmas for the frame property -/

theorem readHealth_lt_of_ne_nil {st : Store} {r : ℕ} (h : readHealth st r ≠ []) :
    r < st.health.length := by
  by_contra h'
  push_neg at h'
  apply h
  simp [readHealth, List.getElem?_eq_none h']

theorem readHealth_alloc_lt (st : Store) (a : List HealthRecord) {i : ℕ}
    (h : i < st.health.length) :
    readHealth (allocHealth st a).1 i = readHealth st i := by
  simp [readHealth, allocHealth, List.getElem?_append_left h]

theorem readHealth_alloc_self (st : Store) (a : List HealthRecord) :
    readHealth (allocHealth st a).1 (allocHealth st a).2 = a := by
  simp [readHealth, allocHealth]

theorem readHealth_write_self (st : Store) {r : ℕ} (a : List HealthRecord)
    (h : r < st.health.length) : readHealth (writeHealth st r a) r = a := by
  simp [readHealth, writeHealth, List.getElem?_set_eq_of_lt a h]

theorem readHealth_write_ne (st : Store) {r i : ℕ} (a : List HealthRecord)
    (h : r ≠ i) : readHealth (writeHealth st r a) i = readHealth st i := by
  simp [readHealth, writeHealth, List.getElem?_set_ne h]

/-! ### C10: computeMetrics never mutates its arguments -/

/-- C10: in the store-passing model — where every `arr.sort(...)` mutates the
array behind its reference — `computeMetrics` leaves both argument arrays
exactly as they were (the streak code sorts freshly spread copies), and the
returned metrics are those of the pure function. -/
theorem computeMetrics_no_mutation (st : Store) (ha sa : ℕ) :
    readHealth (computeMetricsSt st ha sa).2 ha = readHealth st ha ∧
    readScreen (computeMetricsSt st ha sa).2 sa = readScreen st sa ∧
    (computeMetricsSt st ha sa).1 =
      computeMetrics (readHealth st ha) (readScreen st sa) := by
  by_cases hguard : readHealth st ha = [] ∨ readScreen st sa = []
  · simp only [computeMetricsSt, computeMetrics, if_pos hguard]
    exact ⟨trivial, trivial, trivial⟩
  · have hcond := hguard
    push_neg at hguard
    obtain ⟨hh, _⟩ := hguard
    have hlt : ha < st.health.length := readHealth_lt_of_ne_nil hh
    simp only [computeMetricsSt, if_neg hcond]
    set hd0 := readHealth st ha with hhd0
    set sd0 := readScreen st sa with hsd0
    set A1 := allocHealth st hd0 with hA1
    set st1 := sortHealthDescAt A1.1 A1.2 with hst1
    set hd1 := readHealth st1 ha with hhd1
    set A2 := allocHealth st1 hd1 with hA2
    set st2 := sortHealthAscAt A2.1 A2.2 with hst2
    have hA1_2 : A1.2 = st.health.length := by rw [hA1]; rfl
    have hA1len : A1.1.health.length = st.health.length + 1 := by
      rw [hA1]; simp [allocHealth]
    have hr1_ha : readHealth A1.1 ha = hd0 := by
      rw [hA1, hhd0]
      exact readHealth_alloc_lt st _ hlt
    have hst1_ha : readHealth st1 ha = hd0 := by
      rw [hst1, sortHealthDescAt, readHealth_write_ne]
      · exact hr1_ha
      · rw [hA1_2]; omega
    have hst1_r1 : readHealth st1 A1.2 = List.insertionSort hrDateGE hd0 := by
      rw [hst1, sortHealthDescAt, readHealth_write_self]
      · congr 1
        rw [hA1, hhd0]
        exact readHealth_alloc_self st _
      · rw [hA1_2, hA1len]; omega
    have hst1len : st1.health.length = st.health.length + 1 := by
      rw [hst1, sortHealthDescAt, writeHealth]
      simp [hA1len]
    have hhd1_eq : hd1 = hd0 := by rw [hhd1]; exact hst1_ha
    have hA2_2 : A2.2 = st1.health.length := by rw [hA2]; rfl
    have hA2len : A2.1.health.length = st1.health.length + 1 := by
      rw [hA2]; simp [allocHealth]
    have hr2_ha : readHealth A2.1 ha = hd0 := by
      have hlt1 : ha < st1.health.length := by omega
      rw [hA2, readHealth_alloc_lt st1 hd1 hlt1]
      exact hst1_ha
    have hst2_ha : readHealth st2 ha = hd0 := by
      rw [hst2, sortHealthAscAt, readHealth_write_ne]
      · exact hr2_ha
      · rw [hA2_2]; omega
    have hst2_r2 : readHealth st2 A2.2 = List.insertionSort hrDateLE hd0 := by
      rw [hst2, sortHealthAscAt, readHealth_write_self]
      · congr 1
        rw [hA2]
        rw [readHealth_alloc_self st1 hd1]
        exact hhd1_eq
      · rw [hA2_2, hA2len]; omega
    refine ⟨hst2_ha, ?_, ?_⟩
    · rw [hst2, hA2, hst1, hA1, hsd0]
      rfl
    · rw [computeMetrics, if_neg hcond, hst1_r1, hst2_r2, sortedHealthDesc,
        sortedHealthAsc]

end Altu
